import Mathlib

/-!
Verification of the CHIP-8 interpreter (src/emulator.rs, src/decoder.rs,
src/controller.rs, src/display.rs) by a shallow embedding into Lean.

Machine integers are embedded as Nat with explicit reductions:
values of type u8 are kept below 256 (every write reduces mod 256), u16
values below 65536, and wrapping arithmetic is written with explicit
percent operators.  Rust panics (expect, array indexing out of range,
explicit panic calls) are embedded as error results of an Except type.
-/

namespace Chip8

/-- Fatal run conditions: each corresponds to a panic site in the source. -/
inductive EmuError where
  | stackUnderflow
  | invalidOpcode
  | unimplemented
  | memoryFault
deriving DecidableEq

/-- src/display.rs: the 64x32 monochrome pixel grid (buffer y x) plus the
redraw-needed flag. -/
structure Display where
  buffer : Nat → Nat → Bool
  draw : Bool

/-- The controller as the execution engine in src/emulator.rs uses it: a single
optional currently-pressed key and a just-released slot.  (src/controller.rs
declares a different Controller, with a 16-entry held array; emulator.rs reads
fields pressed as an Option and released, which only exist in this shape, so
the engine is embedded against this shape.) -/
structure EmuController where
  pressed : Option Nat
  released : Option Nat

/-- src/emulator.rs: struct Emulator. -/
structure Emulator where
  memory : Nat → Nat
  display : Display
  program_counter : Nat
  index_register : Nat
  stack : List Nat
  delay_timer : Nat
  sound_timer : Nat
  registers : Nat → Nat
  controller : EmuController

/-- src/emulator.rs: struct Instruction (the decoded operand fields). -/
structure Instruction where
  raw_instruction : Nat
  first_opcode : Nat
  x : Nat
  y : Nat
  n : Nat
  nn : Nat
  nnn : Nat

/-- src/emulator.rs: Instruction::new.  Bit-field extraction written with
division and remainder: raw AND 0xF000 is raw / 4096 % 16 * 4096, the x
nibble (raw AND 0x0F00) >> 8 is raw / 256 % 16, and so on. -/
def Instruction.new (raw : Nat) : Instruction :=
  { raw_instruction := raw
    first_opcode := raw / 4096 % 16 * 4096
    x := raw / 256 % 16
    y := raw / 16 % 16
    n := raw % 16
    nn := raw % 256
    nnn := raw % 4096 }

/-- Pointwise update of a Nat-indexed store (register file or memory). -/
def updFn (f : Nat → Nat) (i v : Nat) : Nat → Nat :=
  fun j => if j = i then v else f j

/-- XOR-toggle of one pixel of the display buffer. -/
def togglePixel (buf : Nat → Nat → Bool) (r c : Nat) : Nat → Nat → Bool :=
  fun r' c' => if r' = r ∧ c' = c then !buf r' c' else buf r' c'

/-- src/emulator.rs lines 122-166: the 0x8XYN arithmetic group.  Given the
values of V[x] and V[y] read before any write, returns the result byte and the
optional flag byte, or the invalid-opcode panic. -/
def aluOp (n xr yr : Nat) : Except EmuError (Nat × Option Nat) :=
  if n = 0x0 then .ok (yr, none)
  else if n = 0x1 then .ok (Nat.lor xr yr, none)
  else if n = 0x2 then .ok (Nat.land xr yr, none)
  else if n = 0x3 then .ok (Nat.xor xr yr, none)
  else if n = 0x4 then .ok ((xr + yr) % 256, some (if 256 ≤ xr + yr then 1 else 0))
  else if n = 0x5 then .ok ((xr + 256 - yr) % 256, some (if xr < yr then 0 else 1))
  else if n = 0x6 then .ok (xr / 2, some (if xr % 2 = 1 then 1 else 0))
  else if n = 0x7 then .ok ((yr + 256 - xr) % 256, some (if yr < xr then 0 else 1))
  else if n = 0xE then .ok (xr * 2 % 256, some (if xr / 128 % 2 = 1 then 1 else 0))
  else .error .invalidOpcode

/-- src/emulator.rs lines 282-299: the inner bit loop of the draw routine.
State is (buffer, collision flag VF, display-changed flag); fuel counts the
remaining bit positions (the loop runs i = 0..8).  A zero bit is skipped; a
set bit falling at or past column 64 breaks out of the row. -/
def drawRowGo (byte xpos ypos : Nat) : Nat → Nat → ((Nat → Nat → Bool) × Bool × Bool) → ((Nat → Nat → Bool) × Bool × Bool)
  | 0, _, st => st
  | fuel+1, i, (buf, vf, dfl) =>
    if byte / 2 ^ (7 - i) % 2 = 0 then
      drawRowGo byte xpos ypos fuel (i+1) (buf, vf, dfl)
    else if 64 ≤ xpos + i then (buf, vf, dfl)
    else
      drawRowGo byte xpos ypos fuel (i+1)
        (togglePixel buf ypos (xpos + i), vf || buf ypos (xpos + i), true)

/-- src/emulator.rs lines 276-300: the row loop of the draw routine; pos
enumerates the sprite bytes, a row falling at or past row 32 stops the loop. -/
def drawGo (xpos ypos : Nat) : List Nat → Nat → ((Nat → Nat → Bool) × Bool × Bool) → ((Nat → Nat → Bool) × Bool × Bool)
  | [], _, st => st
  | b :: rest, pos, st =>
    if 32 ≤ ypos + pos then st
    else drawGo xpos ypos rest (pos+1) (drawRowGo b xpos (ypos + pos) 8 0 st)

/-- src/emulator.rs: execute_draw_instruction.  The sprite bytes are the slice
memory[I .. I+n]; a slice that leaves the 4096-byte memory is the
bad-draw-instruction panic.  VF is reset to 0 before the loop and set to 1
on collision inside it, here accumulated as a Bool and written at the end. -/
def execute_draw_instruction (s : Emulator) (inst : Instruction) : Except EmuError Emulator :=
  let x_pos := s.registers inst.x % 64
  let y_pos := s.registers inst.y % 32
  let start := s.index_register
  if start + inst.n ≤ 4096 then
    let bytes := (List.range inst.n).map fun k => s.memory (start + k) % 256
    let st := drawGo x_pos y_pos bytes 0 (s.display.buffer, false, s.display.draw)
    .ok { s with
      display := { buffer := st.1, draw := st.2.2 }
      registers := updFn s.registers 15 (if st.2.1 then 1 else 0) }
  else .error .memoryFault

/-- src/emulator.rs lines 227-233 (the 0xFX33 loop): for i in (0..=2).rev(),
memory[(I + i) as usize] := xv % 10 then xv := xv / 10; the address is the
wrapping u16 sum, and an address outside memory is an indexing panic. -/
def bcdLoop (I : Nat) : List Nat → Nat → (Nat → Nat) → Except EmuError (Nat → Nat)
  | [], _, mem => .ok mem
  | i :: rest, xv, mem =>
    let addr := (I + i) % 65536
    if addr < 4096 then bcdLoop I rest (xv / 10) (updFn mem addr (xv % 10))
    else .error .memoryFault

/-- src/emulator.rs lines 234-239 (the 0xFX55 loop): for i in 0..=x,
memory[(I + i) as usize] := V[i]. -/
def storeLoop (regs : Nat → Nat) (I : Nat) : List Nat → (Nat → Nat) → Except EmuError (Nat → Nat)
  | [], mem => .ok mem
  | i :: rest, mem =>
    let addr := (I + i) % 65536
    if addr < 4096 then storeLoop regs I rest (updFn mem addr (regs i % 256))
    else .error .memoryFault

/-- src/emulator.rs lines 240-245 (the 0xFX65 loop): for i in 0..=x,
V[i] := memory[(I + i) as usize]. -/
def loadLoop (mem : Nat → Nat) (I : Nat) : List Nat → (Nat → Nat) → Except EmuError (Nat → Nat)
  | [], regs => .ok regs
  | i :: rest, regs =>
    let addr := (I + i) % 65536
    if addr < 4096 then loadLoop mem I rest (updFn regs i (mem addr % 256))
    else .error .memoryFault

/-- Modelled from the spec: the crate uses a module named font (constants
FONT_OFFSET and an 80-byte table FONT) whose source file is not under src/;
the spec fixes a fixed 80-byte table (16 glyphs of 5 bytes) copied in at a
fixed low offset, conventionally address 80. -/
def FONT_OFFSET : Nat := 80

/-- src/emulator.rs: the body of the match in execute_instruction, before the
released-buffer cleanup.  Each panic site becomes an error. -/
def executeCore (rnd : Nat) (s : Emulator) (i : Instruction) : Except EmuError Emulator :=
  if i.raw_instruction = 0x00E0 then
    .ok { s with display := { buffer := fun _ _ => false, draw := true } }
  else if i.raw_instruction = 0x00EE then
    match s.stack with
    | [] => .error .stackUnderflow
    | top :: rest => .ok { s with program_counter := top, stack := rest }
  else if i.first_opcode = 0x1000 then
    .ok { s with program_counter := i.nnn }
  else if i.first_opcode = 0x2000 then
    .ok { s with stack := s.program_counter :: s.stack, program_counter := i.nnn }
  else if i.first_opcode = 0x3000 then
    .ok (if s.registers i.x = i.nn then
      { s with program_counter := (s.program_counter + 2) % 65536 } else s)
  else if i.first_opcode = 0x4000 then
    .ok (if s.registers i.x ≠ i.nn then
      { s with program_counter := (s.program_counter + 2) % 65536 } else s)
  else if i.first_opcode = 0x5000 then
    .ok (if s.registers i.x = s.registers i.y then
      { s with program_counter := (s.program_counter + 2) % 65536 } else s)
  else if i.first_opcode = 0x6000 then
    .ok { s with registers := updFn s.registers i.x i.nn }
  else if i.first_opcode = 0x7000 then
    .ok { s with registers := updFn s.registers i.x ((s.registers i.x + i.nn) % 256) }
  else if i.first_opcode = 0x8000 then
    match aluOp i.n (s.registers i.x) (s.registers i.y) with
    | .error e => .error e
    | .ok (result, freg) =>
      let regs1 := updFn s.registers i.x result
      .ok { s with registers := match freg with | some f => updFn regs1 15 f | none => regs1 }
  else if i.first_opcode = 0x9000 then
    .ok (if s.registers i.x ≠ s.registers i.y then
      { s with program_counter := (s.program_counter + 2) % 65536 } else s)
  else if i.first_opcode = 0xA000 then
    .ok { s with index_register := i.nnn }
  else if i.first_opcode = 0xB000 then
    .ok { s with program_counter := (i.nnn + s.registers 0) % 65536 }
  else if i.first_opcode = 0xC000 then
    .ok { s with registers := updFn s.registers i.x (Nat.land (rnd % 256) i.nn) }
  else if i.first_opcode = 0xD000 then
    execute_draw_instruction s i
  else if i.first_opcode = 0xE000 then
    match s.controller.pressed with
    | none => .ok s
    | some key =>
      if i.nn = 0x9E then
        .ok (if key = s.registers i.x then
          { s with program_counter := (s.program_counter + 2) % 65536 } else s)
      else if i.nn = 0xA1 then
        .ok (if key ≠ s.registers i.x then
          { s with program_counter := (s.program_counter + 2) % 65536 } else s)
      else .error .invalidOpcode
  else if i.first_opcode = 0xF000 then
    if i.nn = 0x07 then
      .ok { s with registers := updFn s.registers i.x (s.delay_timer % 256) }
    else if i.nn = 0x15 then
      .ok { s with delay_timer := s.registers i.x % 256 }
    else if i.nn = 0x18 then
      .ok { s with sound_timer := s.registers i.x % 256 }
    else if i.nn = 0x1E then
      let result := (s.index_register + s.registers i.x) % 65536
      let regs' := if 65536 ≤ s.index_register + s.registers i.x ∨ 0x0FFF < result
        then updFn s.registers 15 1 else s.registers
      .ok { s with registers := regs', index_register := result % 0x0FFF }
    else if i.nn = 0x0A then
      match s.controller.pressed with
      | some key => .ok { s with registers := updFn s.registers i.x (key % 256) }
      | none => .ok { s with program_counter := (s.program_counter + 65534) % 65536 }
    else if i.nn = 0x29 then
      .ok { s with index_register := (FONT_OFFSET + s.registers i.x % 16) % 256 }
    else if i.nn = 0x33 then
      match bcdLoop s.index_register [2, 1, 0] (s.registers i.x) s.memory with
      | .ok mem' => .ok { s with memory := mem' }
      | .error e => .error e
    else if i.nn = 0x55 then
      match storeLoop s.registers s.index_register (List.range (i.x + 1)) s.memory with
      | .ok mem' => .ok { s with memory := mem' }
      | .error e => .error e
    else if i.nn = 0x65 then
      match loadLoop s.memory s.index_register (List.range (i.x + 1)) s.registers with
      | .ok regs' => .ok { s with registers := regs' }
      | .error e => .error e
    else .error .invalidOpcode
  else .error .unimplemented

/-- src/emulator.rs: execute_instruction: the match body followed by the
released-buffer cleanup (controller.released := None), which runs on every
non-panicking path. -/
def execute_instruction (rnd : Nat) (s : Emulator) (i : Instruction) : Except EmuError Emulator :=
  (executeCore rnd s i).map fun t =>
    { t with controller := { t.controller with released := none } }

/-- src/emulator.rs: perform_fde_cycle: fetch the two instruction bytes at the
program counter (an out-of-range fetch is an unwrap panic), advance the
program counter by 2, then decode and execute.  The u8 memory cells are
reduced mod 256 when widened to the 16-bit word. -/
def perform_fde_cycle (rnd : Nat) (s : Emulator) : Except EmuError Emulator :=
  if s.program_counter + 1 < 4096 then
    let raw := s.memory s.program_counter % 256 * 256 + s.memory (s.program_counter + 1) % 256
    execute_instruction rnd
      { s with program_counter := (s.program_counter + 2) % 65536 }
      (Instruction.new raw)
  else .error .memoryFault

/-- src/emulator.rs: Emulator::new: zeroed memory with the font table copied
at FONT_OFFSET and the program copied at 512; program counter 512; everything
else zeroed or empty.  The font byte list is a parameter since the font module
is not under src/. -/
def initState (font program : List Nat) : Emulator :=
  { memory := fun a =>
      if 512 ≤ a ∧ a < 512 + program.length then program.getD (a - 512) 0 % 256
      else if FONT_OFFSET ≤ a ∧ a < FONT_OFFSET + font.length then font.getD (a - FONT_OFFSET) 0 % 256
      else 0
    display := { buffer := fun _ _ => false, draw := false }
    program_counter := 512
    index_register := 0
    stack := []
    delay_timer := 0
    sound_timer := 0
    registers := fun _ => 0
    controller := { pressed := none, released := none } }

end Chip8

namespace decoder

/-- src/decoder.rs: enum Instruction. -/
inductive Instruction where
  | Clear
  | PopStack
  | SetProgramCounter
  | PushStackSetProgramCounter
  | SkipIfEqualImmediate
  | SkipIfNotEqualImmediate
  | SkipIfEqualRegister
  | SkipIfNotEqualRegister
  | SetRegister
  | AddToRegister
  | CopyFromRegisterToRegister
  | LogicalOr
  | LogicalAnd
  | LogicalXor
  | Addition
  | Subtraction
  | RightShift
  | FlippedSubtraction
  | LeftShift
  | SetIndexRegister
  | SetProgramCounterOffset
  | RandomNumber
  | Draw
  | KeyDown
  | KeyNotDown
  | CopyDelayTimer
  | SetDelayTimer
  | SetSoundTimer
  | AddToIndexRegister
  | WaitForKeyPress
  | SetIndexRegisterToFontCharacter
  | ConvertToDecimal
  | WriteToMemory
  | ReadFromMemory
deriving DecidableEq

/-- src/decoder.rs: struct ParsedInstruction. -/
structure ParsedInstruction where
  raw_instruction : Nat
  instruction : Instruction
  x : Nat
  y : Nat
  n : Nat
  nn : Nat
  nnn : Nat

/-- src/decoder.rs: the classification match inside ParsedInstruction::parse;
the panic arms become none. -/
def classify (raw : Nat) : Option Instruction :=
  let first_nibble := raw / 4096 % 16
  let n := raw % 16
  let nn := raw % 256
  if raw = 0x00E0 then some .Clear
  else if raw = 0x00EE then some .PopStack
  else if first_nibble = 0x1 then some .SetProgramCounter
  else if first_nibble = 0x2 then some .PushStackSetProgramCounter
  else if first_nibble = 0x3 then some .SkipIfEqualImmediate
  else if first_nibble = 0x4 then some .SkipIfNotEqualImmediate
  else if first_nibble = 0x5 then some .SkipIfEqualRegister
  else if first_nibble = 0x6 then some .SetRegister
  else if first_nibble = 0x7 then some .AddToRegister
  else if first_nibble = 0x8 then
    if n = 0x0 then some .CopyFromRegisterToRegister
    else if n = 0x1 then some .LogicalOr
    else if n = 0x2 then some .LogicalAnd
    else if n = 0x3 then some .LogicalXor
    else if n = 0x4 then some .Addition
    else if n = 0x5 then some .Subtraction
    else if n = 0x6 then some .RightShift
    else if n = 0x7 then some .FlippedSubtraction
    else if n = 0xE then some .LeftShift
    else none
  else if first_nibble = 0x9 then some .SkipIfNotEqualRegister
  else if first_nibble = 0xA then some .SetIndexRegister
  else if first_nibble = 0xB then some .SetProgramCounterOffset
  else if first_nibble = 0xC then some .RandomNumber
  else if first_nibble = 0xD then some .Draw
  else if first_nibble = 0xE then
    if nn = 0x9E then some .KeyDown
    else if nn = 0xA1 then some .KeyNotDown
    else none
  else if first_nibble = 0xF then
    if nn = 0x07 then some .CopyDelayTimer
    else if nn = 0x0A then some .WaitForKeyPress
    else if nn = 0x15 then some .SetDelayTimer
    else if nn = 0x18 then some .SetSoundTimer
    else if nn = 0x1E then some .AddToIndexRegister
    else if nn = 0x29 then some .SetIndexRegisterToFontCharacter
    else if nn = 0x33 then some .ConvertToDecimal
    else if nn = 0x55 then some .WriteToMemory
    else if nn = 0x65 then some .ReadFromMemory
    else none
  else none

/-- src/decoder.rs: ParsedInstruction::parse: classify then extract the
operand fields; the invalid-instruction panic becomes none. -/
def parse (raw : Nat) : Option ParsedInstruction :=
  (classify raw).map fun instr =>
    { raw_instruction := raw
      instruction := instr
      x := raw / 256 % 16
      y := raw / 16 % 16
      n := raw % 16
      nn := raw % 256
      nnn := raw % 4096 }

/-- Follows the spec's words (sections 4.1 and 4.2): the documented opcode
shapes are the two exact full words 0x00E0 and 0x00EE; every word with top
nibble 1-7, 9, A, B, C or D; top nibble 8 with secondary dispatch n in 0-7 or
E; top nibble E with nn equal to 9E or A1; and top nibble F with nn among the
nine listed secondary values.  Anything else, including the remaining
top-nibble-0 words, matches no documented shape. -/
def documentedOpcodeShape (w : Nat) : Bool :=
  if w = 0x00E0 ∨ w = 0x00EE then true
  else
    let top := w / 4096 % 16
    let n := w % 16
    let nn := w % 256
    if top = 0 then false
    else if top = 8 then decide (n ≤ 7 ∨ n = 0xE)
    else if top = 0xE then decide (nn = 0x9E ∨ nn = 0xA1)
    else if top = 0xF then
      decide (nn = 0x07 ∨ nn = 0x0A ∨ nn = 0x15 ∨ nn = 0x18 ∨ nn = 0x1E ∨
        nn = 0x29 ∨ nn = 0x33 ∨ nn = 0x55 ∨ nn = 0x65)
    else true

end decoder

namespace controller

/-- src/controller.rs: struct Controller: the 16-entry held-key array plus the
last-pressed slot. -/
structure Controller where
  pressed : Nat → Bool
  last_pressed : Option Nat

/-- src/controller.rs: is_key_pressed: an index outside the 16-entry array
reads as false (get with unwrap_or false). -/
def Controller.is_key_pressed (c : Controller) (key : Nat) : Bool :=
  if key < 16 then c.pressed key else false

end controller

namespace Chip8

/-- A concrete machine state used as the base point for concrete evaluations:
zero memory and registers, empty stack, no key pressed, program counter 512. -/
def baseState : Emulator :=
  { memory := fun _ => 0
    display := { buffer := fun _ _ => false, draw := false }
    program_counter := 512
    index_register := 0
    stack := []
    delay_timer := 0
    sound_timer := 0
    registers := fun _ => 0
    controller := { pressed := none, released := none } }

/-- C1: evaluation of the code at the failing input.  With I = 0x0FFF and
V[0] = 0, instruction 0xF01E stores (I + V[0]) % 0x0FFF = 0 into the index
register, although the 12-bit mask of the sum, (0x0FFF + 0) % 4096, is 0x0FFF:
the code reduces modulo 0x0FFF (4095) where the claim requires a 12-bit mask
(modulo 4096). -/
theorem C1_fx1e_failing_eval :
    (execute_instruction 0 { baseState with index_register := 0x0FFF }
      (Instruction.new 0xF01E)).toOption.map Emulator.index_register = some 0 ∧
    ({ baseState with index_register := 0x0FFF }.index_register +
      { baseState with index_register := 0x0FFF }.registers 0) % 4096 = 0x0FFF := by
  exact ⟨rfl, rfl⟩

/-- C2 counterexample: on a state whose call stack already holds 16 frames,
the call instruction 0x2ABC does not terminate the run: it succeeds and the
stack grows to 17 frames, refuting the claimed fatal StackOverflow. -/
theorem C2_call_on_full_stack_ok :
    (execute_instruction 0 { baseState with stack := List.replicate 16 0 }
      (Instruction.new 0x2ABC)).toOption.map (fun t => t.stack.length) = some 17 := by
  rfl

/-- C2 amended: the call stack is an unbounded vector; a call instruction
0x2NNN always succeeds, whatever the current stack depth: it pushes the
current program counter and sets the program counter to nnn (the released
key buffer is cleared as on every instruction). -/
theorem C2_call_always_pushes (rnd : Nat) (s : Emulator) (nnn : Nat) (h : nnn < 4096) :
    execute_instruction rnd s (Instruction.new (0x2000 + nnn)) =
      .ok { s with program_counter := nnn, stack := s.program_counter :: s.stack,
                   controller := { pressed := s.controller.pressed, released := none } } := by
  have e0 : ¬(0x2000 + nnn = 0x00E0) := by omega
  have e1 : ¬(0x2000 + nnn = 0x00EE) := by omega
  have f : (0x2000 + nnn) / 4096 % 16 * 4096 = 0x2000 := by omega
  have g : (0x2000 + nnn) % 4096 = nnn := by omega
  simp only [execute_instruction, executeCore, Instruction.new, e0, e1, f, g,
    if_false, reduceIte, Except.map]
  norm_num

/-- C2 witness: the amended call theorem applied at a state with a 16-frame
stack; the stack after the call has 17 frames. -/
theorem C2_call_always_pushes_witness :
    (0xABC : Nat) < 4096 ∧
    execute_instruction 0 { baseState with stack := List.replicate 16 0 }
      (Instruction.new (0x2000 + 0xABC)) =
      .ok { { baseState with stack := List.replicate 16 0 } with
            program_counter := 0xABC,
            stack := { baseState with stack := List.replicate 16 0 }.program_counter ::
              { baseState with stack := List.replicate 16 0 }.stack,
            controller := { pressed := none, released := none } } ∧
    ((512 : Nat) :: List.replicate 16 0).length = 17 := by
  refine ⟨by decide, ?_, by decide⟩
  exact C2_call_always_pushes 0 { baseState with stack := List.replicate 16 0 } 0xABC (by decide)

/-- C3: evaluation of the code at the failing input.  In a state where no key
at all is held (the pressed latch is empty), executing the key-not-down
instruction 0xE0A1 leaves the program counter unchanged at 512, although the
claim requires a skip to 514 since the key named by V[0] is not held. -/
theorem C3_keynotdown_failing_eval :
    baseState.controller.pressed = none ∧
    (execute_instruction 0 baseState
      (Instruction.new 0xE0A1)).toOption.map Emulator.program_counter = some 512 := by
  exact ⟨rfl, rfl⟩

end Chip8

namespace decoder

/-- Auxiliary: parse succeeds exactly when the classification match succeeds. -/
theorem parse_isSome (w : Nat) : (parse w).isSome = (classify w).isSome := by
  unfold parse
  cases classify w <;> rfl

/-- C9: decoding is a total deterministic function on 16-bit words (parse is a
pure function, so decoding the same word twice yields the same result), and it
fails with the invalid-opcode panic exactly on the words matching none of the
documented opcode shapes: parse succeeds if and only if the word matches a
documented shape. -/
theorem C9_decode_fails_iff_undocumented (w : Nat) (hw : w < 65536) :
    (parse w).isSome = documentedOpcodeShape w := by
  rw [parse_isSome]
  by_cases h0 : w = 0x00E0
  · subst h0; rfl
  by_cases h1 : w = 0x00EE
  · subst h1; rfl
  have h01 : ¬(w = 0x00E0 ∨ w = 0x00EE) := by omega
  have ht : w / 4096 % 16 = 0 ∨ w / 4096 % 16 = 1 ∨ w / 4096 % 16 = 2 ∨
      w / 4096 % 16 = 3 ∨ w / 4096 % 16 = 4 ∨ w / 4096 % 16 = 5 ∨
      w / 4096 % 16 = 6 ∨ w / 4096 % 16 = 7 ∨ w / 4096 % 16 = 8 ∨
      w / 4096 % 16 = 9 ∨ w / 4096 % 16 = 10 ∨ w / 4096 % 16 = 11 ∨
      w / 4096 % 16 = 12 ∨ w / 4096 % 16 = 13 ∨ w / 4096 % 16 = 14 ∨
      w / 4096 % 16 = 15 := by omega
  unfold classify documentedOpcodeShape
  rw [if_neg h0, if_neg h1, if_neg h01]
  rcases ht with h|h|h|h|h|h|h|h|h|h|h|h|h|h|h|h <;> rw [h]
  all_goals try rfl
  · have h16 : w % 16 = 0 ∨ w % 16 = 1 ∨ w % 16 = 2 ∨ w % 16 = 3 ∨ w % 16 = 4 ∨
        w % 16 = 5 ∨ w % 16 = 6 ∨ w % 16 = 7 ∨ w % 16 = 8 ∨ w % 16 = 9 ∨
        w % 16 = 10 ∨ w % 16 = 11 ∨ w % 16 = 12 ∨ w % 16 = 13 ∨ w % 16 = 14 ∨
        w % 16 = 15 := by omega
    rcases h16 with g|g|g|g|g|g|g|g|g|g|g|g|g|g|g|g <;> rw [g] <;> rfl
  · by_cases a1 : w % 256 = 0x9E
    · rw [a1]; rfl
    by_cases a2 : w % 256 = 0xA1
    · rw [a2]; rfl
    simp [a1, a2]
  · by_cases a1 : w % 256 = 0x07
    · rw [a1]; rfl
    by_cases a2 : w % 256 = 0x0A
    · rw [a2]; rfl
    by_cases a3 : w % 256 = 0x15
    · rw [a3]; rfl
    by_cases a4 : w % 256 = 0x18
    · rw [a4]; rfl
    by_cases a5 : w % 256 = 0x1E
    · rw [a5]; rfl
    by_cases a6 : w % 256 = 0x29
    · rw [a6]; rfl
    by_cases a7 : w % 256 = 0x33
    · rw [a7]; rfl
    by_cases a8 : w % 256 = 0x55
    · rw [a8]; rfl
    by_cases a9 : w % 256 = 0x65
    · rw [a9]; rfl
    simp [a1, a2, a3, a4, a5, a6, a7, a8, a9]

/-- C9 witness: the decode theorem applied at the word 0x5123, which matches
the skip-if-equal-register shape. -/
theorem C9_decode_fails_iff_undocumented_witness :
    (0x5123 : Nat) < 65536 ∧ (parse 0x5123).isSome = documentedOpcodeShape 0x5123 := by
  exact ⟨by decide, C9_decode_fails_iff_undocumented 0x5123 (by decide)⟩

end decoder

namespace Chip8

/-- Auxiliary: the decimal-conversion loop when all three addresses are in
range: writes the ones digit at I+2, the tens digit at I+1 and the remaining
quotient digit at I. -/
theorem bcdLoop_in_range (I v : Nat) (mem : Nat → Nat) (h2 : I + 2 < 4096) :
    bcdLoop I [2, 1, 0] v mem =
      .ok (updFn (updFn (updFn mem (I + 2) (v % 10)) (I + 1) (v / 10 % 10)) I (v / 10 / 10 % 10)) := by
  have w2 : (I + 2) % 65536 = I + 2 := by omega
  have w1 : (I + 1) % 65536 = I + 1 := by omega
  have w0 : I % 65536 = I := by omega
  have wI : I + 0 = I := by omega
  simp only [bcdLoop, w2, w1, w0, wI]
  rw [if_pos (by omega), if_pos (by omega), if_pos (by omega)]

/-- Auxiliary: the decimal-conversion loop panics whenever I + 2 is not a
valid address (for any 16-bit I, including the wrapping cases). -/
theorem bcdLoop_out_of_range (I v : Nat) (mem : Nat → Nat) (hI : I < 65536)
    (h2 : ¬(I + 2 < 4096)) :
    bcdLoop I [2, 1, 0] v mem = .error .memoryFault := by
  simp only [bcdLoop]
  split_ifs with c2 c1 c0 <;> first | rfl | omega

/-- C8: the decimal-conversion instruction 0xFX33 writes the hundreds digit of
V[x] to memory at address I, the tens digit to I+1 and the ones digit to I+2,
whenever it executes without a memory fault (V[x] is a byte and I a 16-bit
value, as in the source types). -/
theorem C8_bcd_digits (rnd : Nat) (s : Emulator) (x : Nat) (hx : x < 16)
    (hv : s.registers x < 256) (hI : s.index_register < 65536) (s' : Emulator)
    (h : execute_instruction rnd s (Instruction.new (0xF033 + 256 * x)) = .ok s') :
    s'.memory s.index_register = s.registers x / 100 ∧
    s'.memory (s.index_register + 1) = s.registers x / 10 % 10 ∧
    s'.memory (s.index_register + 2) = s.registers x % 10 := by
  have e0 : ¬(0xF033 + 256 * x = 0x00E0) := by omega
  have e1 : ¬(0xF033 + 256 * x = 0x00EE) := by omega
  have fo : (0xF033 + 256 * x) / 4096 % 16 * 4096 = 0xF000 := by omega
  have fx : (0xF033 + 256 * x) / 256 % 16 = x := by omega
  have fnn : (0xF033 + 256 * x) % 256 = 0x33 := by omega
  simp only [execute_instruction, executeCore, Instruction.new, e0, e1, fo, fx, fnn,
    if_false, reduceIte] at h
  by_cases c2 : s.index_register + 2 < 4096
  · rw [bcdLoop_in_range s.index_register (s.registers x) s.memory c2] at h
    simp only [Except.map] at h
    cases h
    refine ⟨?_, ?_, ?_⟩ <;> simp only [updFn] <;> simp <;> omega
  · rw [bcdLoop_out_of_range s.index_register (s.registers x) s.memory hI c2] at h
    simp [Except.map] at h

/-- C8 witness: decimal conversion of V[0] = 234 with I = 7 writes 2, 3, 4 at
addresses 7, 8, 9. -/
theorem C8_bcd_digits_witness :
    ∃ s', execute_instruction 0
        { baseState with index_register := 7, registers := updFn baseState.registers 0 234 }
        (Instruction.new (0xF033 + 256 * 0)) = .ok s' ∧
      s'.memory 7 = 2 ∧ s'.memory 8 = 3 ∧ s'.memory 9 = 4 := by
  refine ⟨_, rfl, ?_, ?_, ?_⟩
  · exact (C8_bcd_digits 0
      { baseState with index_register := 7, registers := updFn baseState.registers 0 234 }
      0 (by decide) (by decide) (by decide) _ rfl).1
  · exact (C8_bcd_digits 0
      { baseState with index_register := 7, registers := updFn baseState.registers 0 234 }
      0 (by decide) (by decide) (by decide) _ rfl).2.1
  · exact (C8_bcd_digits 0
      { baseState with index_register := 7, registers := updFn baseState.registers 0 234 }
      0 (by decide) (by decide) (by decide) _ rfl).2.2

/-- C10: the block memory store 0xFX55 and block memory load 0xFX65 leave the
index register unchanged on every successful execution: I is read as the base
address of the transfer but never written. -/
theorem C10_block_ops_preserve_index (rnd : Nat) (s : Emulator) (x nn : Nat) (hx : x < 16)
    (hnn : nn = 0x55 ∨ nn = 0x65) (s' : Emulator)
    (h : execute_instruction rnd s (Instruction.new (0xF000 + 256 * x + nn)) = .ok s') :
    s'.index_register = s.index_register := by
  have e0 : ¬(0xF000 + 256 * x + nn = 0x00E0) := by omega
  have e1 : ¬(0xF000 + 256 * x + nn = 0x00EE) := by omega
  have fo : (0xF000 + 256 * x + nn) / 4096 % 16 * 4096 = 0xF000 := by omega
  have fnn : (0xF000 + 256 * x + nn) % 256 = nn := by omega
  simp only [execute_instruction, executeCore, Instruction.new, e0, e1, fo, fnn,
    if_false, reduceIte] at h
  rcases hnn with hv | hv <;> subst hv <;> simp only [reduceIte] at h
  · cases hsl : storeLoop s.registers s.index_register
        (List.range ((0xF000 + 256 * x + 0x55) / 256 % 16 + 1)) s.memory with
    | error e => rw [hsl] at h; simp [Except.map] at h
    | ok mem' =>
      rw [hsl] at h
      simp only [Except.map] at h
      cases h
      rfl
  · cases hsl : loadLoop s.memory s.index_register
        (List.range ((0xF000 + 256 * x + 0x65) / 256 % 16 + 1)) s.registers with
    | error e => rw [hsl] at h; simp [Except.map] at h
    | ok regs' =>
      rw [hsl] at h
      simp only [Except.map] at h
      cases h
      rfl

/-- C10 witness: a block store of V0 and V1 at I = 100 leaves I = 100. -/
theorem C10_block_ops_preserve_index_witness :
    ∃ s', execute_instruction 0 { baseState with index_register := 100 }
        (Instruction.new (0xF000 + 256 * 1 + 0x55)) = .ok s' ∧
      s'.index_register = 100 := by
  refine ⟨_, rfl, ?_⟩
  exact C10_block_ops_preserve_index 0 { baseState with index_register := 100 }
    1 0x55 (by decide) (Or.inl rfl) _ rfl

set_option maxHeartbeats 1600000 in
/-- C5: for every register-to-register ALU instruction 0x8XYN for which the
group dispatch succeeds, the result and the optional flag are computed from
the values of V[x] and V[y] before any write; then the result is written to
V[x] and afterwards the flag (when present, that is for N in 4, 5, 6, 7, E)
is written to VF, so the flag write overrides the result write when x = 0xF:
the final register file reads f at 15 first, then result at x, then the old
values. -/
theorem C5_alu_write_order (rnd : Nat) (s : Emulator) (x y n : Nat) (hx : x < 16) (hy : y < 16)
    (result : Nat) (fl : Option Nat)
    (halu : aluOp n (s.registers x) (s.registers y) = .ok (result, fl))
    (s' : Emulator)
    (h : execute_instruction rnd s (Instruction.new (0x8000 + 256 * x + 16 * y + n)) = .ok s') :
    ∀ j, s'.registers j =
      match fl with
      | some f => if j = 15 then f else if j = x then result else s.registers j
      | none => if j = x then result else s.registers j := by
  have hn16 : n < 16 := by
    unfold aluOp at halu
    split_ifs at halu <;> omega
  have e0 : ¬(0x8000 + 256 * x + 16 * y + n = 0x00E0) := by omega
  have e1 : ¬(0x8000 + 256 * x + 16 * y + n = 0x00EE) := by omega
  have fo : (0x8000 + 256 * x + 16 * y + n) / 4096 % 16 * 4096 = 0x8000 := by omega
  have fx : (0x8000 + 256 * x + 16 * y + n) / 256 % 16 = x := by omega
  have fy : (0x8000 + 256 * x + 16 * y + n) / 16 % 16 = y := by omega
  have fn : (0x8000 + 256 * x + 16 * y + n) % 16 = n := by omega
  simp only [execute_instruction, executeCore, Instruction.new, e0, e1, fo, fx, fy, fn,
    if_false, reduceIte] at h
  rw [halu] at h
  simp only [Except.map] at h
  cases fl with
  | some f =>
    simp only at h
    cases h
    intro j
    simp only [updFn]
  | none =>
    simp only at h
    cases h
    intro j
    simp [updFn]

/-- C5 witness: with x = 0xF (VF is both destination and flag target), V[0xF]
= 250 and V[1] = 10, the add instruction 0x8F14 leaves VF = 1 (the carry flag,
written after the 4 = 260 mod 256 result) and V[1] = 10 unchanged. -/
theorem C5_alu_write_order_witness :
    ∃ s', execute_instruction 0
        { baseState with registers := updFn (updFn baseState.registers 15 250) 1 10 }
        (Instruction.new (0x8000 + 256 * 15 + 16 * 1 + 4)) = .ok s' ∧
      s'.registers 15 = 1 ∧ s'.registers 1 = 10 := by
  refine ⟨_, rfl, ?_, ?_⟩
  · exact (C5_alu_write_order 0
      { baseState with registers := updFn (updFn baseState.registers 15 250) 1 10 }
      15 1 4 (by decide) (by decide) 4 (some 1) rfl _ rfl) 15
  · exact (C5_alu_write_order 0
      { baseState with registers := updFn (updFn baseState.registers 15 250) 1 10 }
      15 1 4 (by decide) (by decide) 4 (some 1) rfl _ rfl) 1

end Chip8

namespace Chip8

/-- The set of columns toggled by the bit loop started at bit index i: columns
xpos + k for the remaining set bits k that lie left of column 64. -/
def rowTog (byte xpos i c : Nat) : Prop :=
  ∃ k, i ≤ k ∧ k < 8 ∧ c = xpos + k ∧ xpos + k < 64 ∧ byte / 2 ^ (7 - k) % 2 = 1

theorem rowTog_mono (byte xpos i c : Nat) (h : rowTog byte xpos (i+1) c) :
    rowTog byte xpos i c := by
  obtain ⟨k, h1, h2, h3, h4, h5⟩ := h
  exact ⟨k, by omega, h2, h3, h4, h5⟩

theorem drawRowGo_fst (byte xpos ypos : Nat) :
    ∀ fuel i buf vf dfl, i + fuel = 8 → ∀ r c,
      ((r = ypos ∧ rowTog byte xpos i c) →
        (drawRowGo byte xpos ypos fuel i (buf, vf, dfl)).1 r c = !(buf r c)) ∧
      (¬(r = ypos ∧ rowTog byte xpos i c) →
        (drawRowGo byte xpos ypos fuel i (buf, vf, dfl)).1 r c = buf r c) := by
  intro fuel
  induction fuel with
  | zero =>
    intro i buf vf dfl hif r c
    constructor
    · rintro ⟨hr, k, h1, h2, -⟩
      omega
    · intro _
      rfl
  | succ fuel ih =>
    intro i buf vf dfl hif r c
    simp only [drawRowGo]
    by_cases hbit : byte / 2 ^ (7 - i) % 2 = 0
    · rw [if_pos hbit]
      have ih' := ih (i+1) buf vf dfl (by omega) r c
      constructor
      · rintro ⟨hr, k, h1, h2, h3, h4, h5⟩
        apply ih'.1
        refine ⟨hr, k, ?_, h2, h3, h4, h5⟩
        rcases Nat.eq_or_lt_of_le h1 with he | hl
        · exfalso
          rw [← he] at h5
          omega
        · omega
      · intro hn
        exact ih'.2 fun ⟨hr, htg⟩ => hn ⟨hr, rowTog_mono byte xpos i c htg⟩
    · rw [if_neg hbit]
      by_cases hx64 : 64 ≤ xpos + i
      · rw [if_pos hx64]
        constructor
        · rintro ⟨hr, k, h1, h2, h3, h4, h5⟩
          exfalso
          omega
        · intro _
          rfl
      · rw [if_neg hx64]
        have ih' := ih (i+1) (togglePixel buf ypos (xpos+i)) (vf || buf ypos (xpos+i)) true
          (by omega) r c
        constructor
        · rintro ⟨hr, k, h1, h2, h3, h4, h5⟩
          by_cases hk : k = i
          · subst hk
            have hnt : ¬(r = ypos ∧ rowTog byte xpos (k+1) c) := by
              rintro ⟨-, k', g1, g2, g3, -⟩
              omega
            rw [ih'.2 hnt]
            subst hr
            subst h3
            simp [togglePixel]
          · have htg : rowTog byte xpos (i+1) c := ⟨k, by omega, h2, h3, h4, h5⟩
            rw [ih'.1 ⟨hr, htg⟩]
            have hne : ¬(r = ypos ∧ c = xpos + i) := by
              rintro ⟨-, hc⟩
              omega
            simp only [togglePixel]
            rw [if_neg hne]
        · intro hn
          have hbit1 : byte / 2 ^ (7 - i) % 2 = 1 := by omega
          have hni : ¬(r = ypos ∧ rowTog byte xpos (i+1) c) :=
            fun ⟨hr, htg⟩ => hn ⟨hr, rowTog_mono byte xpos i c htg⟩
          rw [ih'.2 hni]
          have hne : ¬(r = ypos ∧ c = xpos + i) := by
            rintro ⟨hr, hc⟩
            exact hn ⟨hr, i, Nat.le_refl i, by omega, hc, by omega, hbit1⟩
          simp only [togglePixel]
          rw [if_neg hne]

theorem drawRowGo_vf (byte xpos ypos : Nat) :
    ∀ fuel i buf vf dfl, i + fuel = 8 →
      ((drawRowGo byte xpos ypos fuel i (buf, vf, dfl)).2.1 = true ↔
        (vf = true ∨ ∃ c, rowTog byte xpos i c ∧ buf ypos c = true)) := by
  intro fuel
  induction fuel with
  | zero =>
    intro i buf vf dfl hif
    constructor
    · intro hv
      exact Or.inl hv
    · rintro (hv | ⟨c, ⟨k, h1, h2, -⟩, -⟩)
      · exact hv
      · omega
  | succ fuel ih =>
    intro i buf vf dfl hif
    simp only [drawRowGo]
    by_cases hbit : byte / 2 ^ (7 - i) % 2 = 0
    · rw [if_pos hbit]
      rw [ih (i+1) buf vf dfl (by omega)]
      constructor
      · rintro (hv | ⟨c, htg, hb⟩)
        · exact Or.inl hv
        · exact Or.inr ⟨c, rowTog_mono byte xpos i c htg, hb⟩
      · rintro (hv | ⟨c, ⟨k, h1, h2, h3, h4, h5⟩, hb⟩)
        · exact Or.inl hv
        · refine Or.inr ⟨c, ⟨k, ?_, h2, h3, h4, h5⟩, hb⟩
          rcases Nat.eq_or_lt_of_le h1 with he | hl
          · exfalso
            rw [← he] at h5
            omega
          · omega
    · rw [if_neg hbit]
      have hbit1 : byte / 2 ^ (7 - i) % 2 = 1 := by omega
      by_cases hx64 : 64 ≤ xpos + i
      · rw [if_pos hx64]
        constructor
        · intro hv
          exact Or.inl hv
        · rintro (hv | ⟨c, ⟨k, h1, h2, h3, h4, h5⟩, -⟩)
          · exact hv
          · omega
      · rw [if_neg hx64]
        rw [ih (i+1) (togglePixel buf ypos (xpos+i)) (vf || buf ypos (xpos+i)) true (by omega)]
        have htogsame : ∀ c, rowTog byte xpos (i+1) c →
            togglePixel buf ypos (xpos+i) ypos c = buf ypos c := by
          rintro c ⟨k, g1, g2, g3, g4, g5⟩
          simp only [togglePixel]
          rw [if_neg (by rintro ⟨-, hc⟩; omega)]
        constructor
        · rintro (hv | ⟨c, htg, hb⟩)
          · rcases Bool.or_eq_true .. ▸ hv with h | h
            · exact Or.inl h
            · exact Or.inr ⟨xpos + i, ⟨i, Nat.le_refl i, by omega, rfl, by omega, hbit1⟩, h⟩
          · rw [htogsame c htg] at hb
            exact Or.inr ⟨c, rowTog_mono byte xpos i c htg, hb⟩
        · rintro (hv | ⟨c, ⟨k, h1, h2, h3, h4, h5⟩, hb⟩)
          · left
            rw [hv]
            rfl
          · by_cases hk : k = i
            · left
              subst hk
              subst h3
              rw [hb]
              simp
            · right
              have htg : rowTog byte xpos (i+1) c := ⟨k, by omega, h2, h3, h4, h5⟩
              refine ⟨c, htg, ?_⟩
              rw [htogsame c htg]
              exact hb

end Chip8

namespace Chip8

/-- The set of pixels toggled by the row loop: row ypos + pos + j for sprite
byte j (only rows above row 32), columns per rowTog of that byte. -/
def sprTog (bytes : List Nat) (xpos ypos pos r c : Nat) : Prop :=
  ∃ j, j < bytes.length ∧ r = ypos + pos + j ∧ ypos + pos + j < 32 ∧
    rowTog (bytes.getD j 0) xpos 0 c

theorem sprTog_cons (b : Nat) (rest : List Nat) (xpos ypos pos r c : Nat) :
    sprTog (b :: rest) xpos ypos pos r c ↔
      (r = ypos + pos ∧ ypos + pos < 32 ∧ rowTog b xpos 0 c) ∨
        sprTog rest xpos ypos (pos+1) r c := by
  constructor
  · rintro ⟨j, h1, h2, h3, h4⟩
    cases j with
    | zero =>
      left
      exact ⟨by omega, by omega, h4⟩
    | succ j' =>
      right
      exact ⟨j', by simpa using h1, by omega, by omega, by simpa using h4⟩
  · rintro (⟨h1, h2, h3⟩ | ⟨j', h1, h2, h3, h4⟩)
    · exact ⟨0, by simp, by omega, by omega, h3⟩
    · exact ⟨j' + 1, by simpa using h1, by omega, by omega, by simpa using h4⟩

theorem drawGo_fst (xpos ypos : Nat) :
    ∀ bytes pos buf vf dfl r c,
      ((sprTog bytes xpos ypos pos r c) →
        (drawGo xpos ypos bytes pos (buf, vf, dfl)).1 r c = !(buf r c)) ∧
      (¬ sprTog bytes xpos ypos pos r c →
        (drawGo xpos ypos bytes pos (buf, vf, dfl)).1 r c = buf r c) := by
  intro bytes
  induction bytes with
  | nil =>
    intro pos buf vf dfl r c
    constructor
    · rintro ⟨j, h1, -⟩
      simp at h1
    · intro _
      rfl
  | cons b rest ih =>
    intro pos buf vf dfl r c
    simp only [drawGo]
    by_cases h32 : 32 ≤ ypos + pos
    · rw [if_pos h32]
      constructor
      · rintro ⟨j, h1, h2, h3, -⟩
        omega
      · intro _
        rfl
    · rw [if_neg h32]
      rcases hst : drawRowGo b xpos (ypos + pos) 8 0 (buf, vf, dfl) with ⟨buf1, vf1, dfl1⟩
      have hrow := drawRowGo_fst b xpos (ypos + pos) 8 0 buf vf dfl (by omega) r c
      rw [hst] at hrow
      simp only at hrow
      have ih' := ih (pos+1) buf1 vf1 dfl1 r c
      constructor
      · intro hs
        rcases (sprTog_cons b rest xpos ypos pos r c).1 hs with ⟨h1, h2, h3⟩ | hrest
        · have hnr : ¬ sprTog rest xpos ypos (pos+1) r c := by
            rintro ⟨j, g1, g2, -⟩
            omega
          rw [ih'.2 hnr]
          exact hrow.1 ⟨h1, h3⟩
        · have hnr0 : ¬(r = ypos + pos ∧ rowTog b xpos 0 c) := by
            rintro ⟨h1, -⟩
            obtain ⟨j, g1, g2, -⟩ := hrest
            omega
          rw [ih'.1 hrest, hrow.2 hnr0]
      · intro hn
        rw [sprTog_cons b rest xpos ypos pos r c] at hn
        push_neg at hn
        have hnr : ¬ sprTog rest xpos ypos (pos+1) r c := hn.2
        have hnr0 : ¬(r = ypos + pos ∧ rowTog b xpos 0 c) := by
          rintro ⟨h1, h3⟩
          exact hn.1 h1 (by omega) h3
        rw [ih'.2 hnr]
        exact hrow.2 hnr0

end Chip8

namespace Chip8

theorem drawGo_vf (xpos ypos : Nat) :
    ∀ bytes pos buf vf dfl,
      ((drawGo xpos ypos bytes pos (buf, vf, dfl)).2.1 = true ↔
        vf = true ∨ ∃ r c, sprTog bytes xpos ypos pos r c ∧ buf r c = true) := by
  intro bytes
  induction bytes with
  | nil =>
    intro pos buf vf dfl
    simp only [drawGo]
    constructor
    · exact Or.inl
    · rintro (hv | ⟨r, c, ⟨j, h1, -⟩, -⟩)
      · exact hv
      · simp at h1
  | cons b rest ih =>
    intro pos buf vf dfl
    simp only [drawGo]
    by_cases h32 : 32 ≤ ypos + pos
    · rw [if_pos h32]
      constructor
      · exact Or.inl
      · rintro (hv | ⟨r, c, ⟨j, g1, g2, g3, -⟩, -⟩)
        · exact hv
        · omega
    · rw [if_neg h32]
      rcases hst : drawRowGo b xpos (ypos + pos) 8 0 (buf, vf, dfl) with ⟨buf1, vf1, dfl1⟩
      have hrowvf := drawRowGo_vf b xpos (ypos + pos) 8 0 buf vf dfl (by omega)
      rw [hst] at hrowvf
      simp only at hrowvf
      have hrowfst : ∀ r c, ¬(r = ypos + pos ∧ rowTog b xpos 0 c) → buf1 r c = buf r c := by
        intro r c hnc
        have h := (drawRowGo_fst b xpos (ypos + pos) 8 0 buf vf dfl (by omega) r c).2 hnc
        rw [hst] at h
        simpa using h
      rw [ih (pos+1) buf1 vf1 dfl1]
      constructor
      · rintro (hv1 | ⟨r, c, hsp, hb⟩)
        · rcases hrowvf.1 hv1 with hv | ⟨c, htg, hb⟩
          · exact Or.inl hv
          · exact Or.inr ⟨ypos + pos, c,
              (sprTog_cons b rest xpos ypos pos (ypos + pos) c).2 (Or.inl ⟨rfl, by omega, htg⟩), hb⟩
        · have hr : r ≠ ypos + pos := by
            obtain ⟨j, g1, g2, -⟩ := hsp
            omega
          rw [hrowfst r c (fun hh => hr hh.1)] at hb
          exact Or.inr ⟨r, c, (sprTog_cons b rest xpos ypos pos r c).2 (Or.inr hsp), hb⟩
      · rintro (hv | ⟨r, c, hsp, hb⟩)
        · exact Or.inl (hrowvf.2 (Or.inl hv))
        · rcases (sprTog_cons b rest xpos ypos pos r c).1 hsp with ⟨h1, h2, h3⟩ | hrest
          · refine Or.inl (hrowvf.2 (Or.inr ⟨c, h3, ?_⟩))
            rw [← h1]
            exact hb
          · right
            have hr : r ≠ ypos + pos := by
              obtain ⟨j, g1, g2, -⟩ := hrest
              omega
            refine ⟨r, c, hrest, ?_⟩
            rw [hrowfst r c (fun hh => hr hh.1)]
            exact hb

end Chip8

namespace Chip8

/-- The set of pixels toggled by a draw instruction, as a function of the
pre-state: sprite bytes from memory at I, start position (V[x] mod 64,
V[y] mod 32). -/
def drawTog (s : Emulator) (inst : Instruction) (r c : Nat) : Prop :=
  sprTog ((List.range inst.n).map fun k => s.memory (s.index_register + k) % 256)
    (s.registers inst.x % 64) (s.registers inst.y % 32) 0 r c

/-- Full characterization of a successful draw: memory, index register and the
registers other than VF are untouched; a pixel is flipped exactly when it is
in the toggle set; and VF reports exactly whether some toggled pixel was set
before the draw. -/
theorem execute_draw_characterization (s : Emulator) (inst : Instruction) (s' : Emulator)
    (h : execute_draw_instruction s inst = .ok s') :
    s'.memory = s.memory ∧
    s'.index_register = s.index_register ∧
    (∀ j, j ≠ 15 → s'.registers j = s.registers j) ∧
    (∀ r c, drawTog s inst r c → s'.display.buffer r c = !(s.display.buffer r c)) ∧
    (∀ r c, ¬ drawTog s inst r c → s'.display.buffer r c = s.display.buffer r c) ∧
    (s'.registers 15 = 1 ↔ ∃ r c, drawTog s inst r c ∧ s.display.buffer r c = true) ∧
    (s'.registers 15 = 0 ↔ ¬∃ r c, drawTog s inst r c ∧ s.display.buffer r c = true) := by
  simp only [execute_draw_instruction] at h
  by_cases hb : s.index_register + inst.n ≤ 4096
  · rw [if_pos hb] at h
    rcases hst : drawGo (s.registers inst.x % 64) (s.registers inst.y % 32)
        ((List.range inst.n).map fun k => s.memory (s.index_register + k) % 256) 0
        (s.display.buffer, false, s.display.draw) with ⟨buf1, vf1, dfl1⟩
    rw [hst] at h
    cases h
    dsimp only
    have hvf' : (vf1 = true) ↔ ∃ r c, drawTog s inst r c ∧ s.display.buffer r c = true := by
      have hq := drawGo_vf (s.registers inst.x % 64) (s.registers inst.y % 32)
        ((List.range inst.n).map fun k => s.memory (s.index_register + k) % 256) 0
        s.display.buffer false s.display.draw
      rw [hst] at hq
      simpa [drawTog] using hq
    have hv15 : ∀ v : Nat, updFn s.registers 15 v 15 = v := by
      intro v
      simp [updFn]
    refine ⟨rfl, rfl, ?_, ?_, ?_, ?_, ?_⟩
    · intro j hj
      simp [updFn, hj]
    · intro r c ht
      have hh := (drawGo_fst (s.registers inst.x % 64) (s.registers inst.y % 32)
        ((List.range inst.n).map fun k => s.memory (s.index_register + k) % 256) 0
        s.display.buffer false s.display.draw r c).1 ht
      rw [hst] at hh
      simpa using hh
    · intro r c ht
      have hh := (drawGo_fst (s.registers inst.x % 64) (s.registers inst.y % 32)
        ((List.range inst.n).map fun k => s.memory (s.index_register + k) % 256) 0
        s.display.buffer false s.display.draw r c).2 ht
      rw [hst] at hh
      simpa using hh
    · rw [hv15]
      by_cases hvb : vf1 = true
      · rw [if_pos hvb]
        exact ⟨fun _ => hvf'.1 hvb, fun _ => rfl⟩
      · rw [if_neg hvb]
        constructor
        · intro hh
          exact absurd hh (by norm_num)
        · intro hp
          exact absurd (hvf'.2 hp) hvb
    · rw [hv15]
      by_cases hvb : vf1 = true
      · rw [if_pos hvb]
        constructor
        · intro hh
          exact absurd hh (by norm_num)
        · intro hp
          exact absurd (hvf'.1 hvb) hp
      · rw [if_neg hvb]
        exact ⟨fun _ hp => absurd (hvf'.2 hp) hvb, fun _ => rfl⟩
  · rw [if_neg hb] at h
    exact absurd h (by simp)

end Chip8

namespace Chip8

/-- C4: executing the identical draw instruction twice in succession (with
V[x] and V[y] unchanged between the two draws; memory, I and the sprite bytes
are unchanged automatically) restores every pixel of the display buffer; and a
single draw sets VF to 1 if and only if some pixel that was set before the
draw was toggled by it, and VF to 0 otherwise. -/
theorem C4_draw_involution_collision (s : Emulator) (inst : Instruction) (s1 s2 : Emulator)
    (h1 : execute_draw_instruction s inst = .ok s1)
    (h2 : execute_draw_instruction s1 inst = .ok s2)
    (hx : s1.registers inst.x = s.registers inst.x)
    (hy : s1.registers inst.y = s.registers inst.y) :
    (∀ r c, s2.display.buffer r c = s.display.buffer r c) ∧
    (s1.registers 15 = 1 ↔
      ∃ r c, s1.display.buffer r c ≠ s.display.buffer r c ∧ s.display.buffer r c = true) ∧
    (s1.registers 15 = 0 ↔
      ¬∃ r c, s1.display.buffer r c ≠ s.display.buffer r c ∧ s.display.buffer r c = true) := by
  obtain ⟨hmem1, hidx1, hregs1, hon1, hoff1, hvf1, hvf0⟩ :=
    execute_draw_characterization s inst s1 h1
  obtain ⟨hmem2, hidx2, hregs2, hon2, hoff2, -, -⟩ :=
    execute_draw_characterization s1 inst s2 h2
  have htog : ∀ r c, drawTog s1 inst r c ↔ drawTog s inst r c := by
    intro r c
    unfold drawTog
    rw [hmem1, hidx1, hx, hy]
  have hdiff : ∀ r c, (s1.display.buffer r c ≠ s.display.buffer r c) ↔ drawTog s inst r c := by
    intro r c
    constructor
    · intro hne
      by_contra hnt
      exact hne (hoff1 r c hnt)
    · intro ht
      rw [hon1 r c ht]
      cases s.display.buffer r c <;> simp
  refine ⟨?_, ?_, ?_⟩
  · intro r c
    by_cases ht : drawTog s inst r c
    · rw [hon2 r c ((htog r c).2 ht), hon1 r c ht, Bool.not_not]
    · rw [hoff2 r c (fun hh => ht ((htog r c).1 hh)), hoff1 r c ht]
  · rw [hvf1]
    constructor
    · rintro ⟨r, c, ht, hb⟩
      exact ⟨r, c, (hdiff r c).2 ht, hb⟩
    · rintro ⟨r, c, hne, hb⟩
      exact ⟨r, c, (hdiff r c).1 hne, hb⟩
  · rw [hvf0]
    constructor
    · rintro hn ⟨r, c, hne, hb⟩
      exact hn ⟨r, c, (hdiff r c).1 hne, hb⟩
    · rintro hn ⟨r, c, ht, hb⟩
      exact hn ⟨r, c, (hdiff r c).2 ht, hb⟩

/-- C7: sprite drawing clips at the screen edges without wraparound: rows at
or past row 32 are never modified, and a sprite whose start column is 60
modifies no pixel in columns below 60 or at or past 64. -/
theorem C7_draw_clipping (s : Emulator) (inst : Instruction) (s' : Emulator)
    (h : execute_draw_instruction s inst = .ok s') :
    (∀ r c, 32 ≤ r → s'.display.buffer r c = s.display.buffer r c) ∧
    (s.registers inst.x % 64 = 60 →
      ∀ r c, c < 60 ∨ 64 ≤ c → s'.display.buffer r c = s.display.buffer r c) := by
  obtain ⟨-, -, -, -, hoff, -, -⟩ := execute_draw_characterization s inst s' h
  constructor
  · intro r c hr
    apply hoff
    rintro ⟨j, g1, g2, g3, -⟩
    omega
  · intro h60 r c hc
    apply hoff
    rintro ⟨j, g1, g2, g3, k, k1, k2, k3, k4, -⟩
    rw [h60] at k3 k4
    omega

end Chip8

namespace Chip8

/-- A concrete state for draw evaluations: sprite byte 0x80 at address 0,
pixel (0,0) lit. -/
def drawState1 : Emulator :=
  { baseState with
    memory := updFn baseState.memory 0 0x80
    display := { buffer := fun r c => r == 0 && c == 0, draw := false } }

/-- C4 witness: drawing sprite 0x80 at (0,0) over a lit pixel (0,0) twice
restores the display, and the first draw reports the collision in VF. -/
theorem C4_draw_involution_collision_witness :
    ∃ s1 s2,
      execute_draw_instruction drawState1 (Instruction.new 0xD011) = .ok s1 ∧
      execute_draw_instruction s1 (Instruction.new 0xD011) = .ok s2 ∧
      (∀ r c, s2.display.buffer r c = drawState1.display.buffer r c) ∧
      (s1.registers 15 = 1 ↔
        ∃ r c, s1.display.buffer r c ≠ drawState1.display.buffer r c ∧
          drawState1.display.buffer r c = true) := by
  refine ⟨_, _, rfl, rfl, ?_, ?_⟩
  · exact (C4_draw_involution_collision drawState1 (Instruction.new 0xD011) _ _ rfl rfl (by rfl) (by rfl)).1
  · exact (C4_draw_involution_collision drawState1 (Instruction.new 0xD011) _ _ rfl rfl (by rfl) (by rfl)).2.1

/-- A concrete state for the clipping evaluation: V0 = 60, full sprite row at
address 0. -/
def drawState2 : Emulator :=
  { baseState with
    memory := updFn baseState.memory 0 0xFF
    registers := updFn baseState.registers 0 60 }

/-- C7 witness: drawing the full row byte 0xFF at start column 60 leaves
row 40 and column 59 untouched. -/
theorem C7_draw_clipping_witness :
    ∃ s', execute_draw_instruction drawState2 (Instruction.new 0xD011) = .ok s' ∧
      s'.display.buffer 40 0 = drawState2.display.buffer 40 0 ∧
      s'.display.buffer 0 59 = drawState2.display.buffer 0 59 := by
  refine ⟨_, rfl, ?_, ?_⟩
  · exact (C7_draw_clipping drawState2 (Instruction.new 0xD011) _ rfl).1 40 0 (by decide)
  · exact (C7_draw_clipping drawState2 (Instruction.new 0xD011) _ rfl).2 (by rfl) 0 59 (Or.inl (by decide))

end Chip8

namespace Chip8

/-- Auxiliary: a successful draw never changes the program counter. -/
theorem execute_draw_pc (s : Emulator) (inst : Instruction) (s' : Emulator)
    (h : execute_draw_instruction s inst = .ok s') :
    s'.program_counter = s.program_counter := by
  simp only [execute_draw_instruction] at h
  by_cases hb : s.index_register + inst.n ≤ 4096
  · rw [if_pos hb] at h
    cases h
    rfl
  · rw [if_neg hb] at h
    exact absurd h (by simp)

set_option maxHeartbeats 4000000 in
/-- Auxiliary: executing one decoded instruction preserves evenness of the
program counter provided the instruction's explicit program-counter targets
(popped return address, jump or call target, offset-jump target) are even. -/
theorem exec_pc_parity (rnd : Nat) (s : Emulator) (i : Instruction) (s' : Emulator)
    (h : execute_instruction rnd s i = .ok s')
    (hee : i.raw_instruction = 0x00EE → s.stack.headD 0 % 2 = 0)
    (h1 : i.first_opcode = 0x1000 → i.nnn % 2 = 0)
    (h2 : i.first_opcode = 0x2000 → i.nnn % 2 = 0)
    (hof : i.first_opcode = 0xB000 → (i.nnn + s.registers 0) % 2 = 0)
    (he : s.program_counter % 2 = 0) : s'.program_counter % 2 = 0 := by
  unfold execute_instruction at h
  cases hc : executeCore rnd s i with
  | error e =>
    rw [hc] at h
    exact absurd h (by simp [Except.map])
  | ok t =>
    rw [hc] at h
    simp only [Except.map] at h
    cases h
    dsimp only
    unfold executeCore at hc
    by_cases b1 : i.raw_instruction = 0x00E0
    · rw [if_pos b1] at hc
      cases hc
      exact he
    rw [if_neg b1] at hc
    by_cases b2 : i.raw_instruction = 0x00EE
    · rw [if_pos b2] at hc
      cases hs1 : s.stack with
      | nil =>
        rw [hs1] at hc
        exact absurd hc (by simp)
      | cons top rest =>
        rw [hs1] at hc
        cases hc
        dsimp only
        have hq := hee b2
        rw [hs1] at hq
        simpa using hq
    rw [if_neg b2] at hc
    by_cases b3 : i.first_opcode = 0x1000
    · rw [if_pos b3] at hc
      cases hc
      exact h1 b3
    rw [if_neg b3] at hc
    by_cases b4 : i.first_opcode = 0x2000
    · rw [if_pos b4] at hc
      cases hc
      exact h2 b4
    rw [if_neg b4] at hc
    by_cases b5 : i.first_opcode = 0x3000
    · rw [if_pos b5] at hc
      cases hc
      split <;> ((try dsimp only); omega)
    rw [if_neg b5] at hc
    by_cases b6 : i.first_opcode = 0x4000
    · rw [if_pos b6] at hc
      cases hc
      split <;> ((try dsimp only); omega)
    rw [if_neg b6] at hc
    by_cases b7 : i.first_opcode = 0x5000
    · rw [if_pos b7] at hc
      cases hc
      split <;> ((try dsimp only); omega)
    rw [if_neg b7] at hc
    by_cases b8 : i.first_opcode = 0x6000
    · rw [if_pos b8] at hc
      cases hc
      exact he
    rw [if_neg b8] at hc
    by_cases b9 : i.first_opcode = 0x7000
    · rw [if_pos b9] at hc
      cases hc
      exact he
    rw [if_neg b9] at hc
    by_cases b10 : i.first_opcode = 0x8000
    · rw [if_pos b10] at hc
      cases halu : aluOp i.n (s.registers i.x) (s.registers i.y) with
      | error e =>
        rw [halu] at hc
        exact absurd hc (by simp)
      | ok p =>
        obtain ⟨result, freg⟩ := p
        rw [halu] at hc
        simp only at hc
        cases hc
        exact he
    rw [if_neg b10] at hc
    by_cases b11 : i.first_opcode = 0x9000
    · rw [if_pos b11] at hc
      cases hc
      split <;> ((try dsimp only); omega)
    rw [if_neg b11] at hc
    by_cases b12 : i.first_opcode = 0xA000
    · rw [if_pos b12] at hc
      cases hc
      exact he
    rw [if_neg b12] at hc
    by_cases b13 : i.first_opcode = 0xB000
    · rw [if_pos b13] at hc
      cases hc
      dsimp only
      have hq := hof b13
      omega
    rw [if_neg b13] at hc
    by_cases b14 : i.first_opcode = 0xC000
    · rw [if_pos b14] at hc
      cases hc
      exact he
    rw [if_neg b14] at hc
    by_cases b15 : i.first_opcode = 0xD000
    · rw [if_pos b15] at hc
      have hq := execute_draw_pc s i t hc
      omega
    rw [if_neg b15] at hc
    by_cases b16 : i.first_opcode = 0xE000
    · rw [if_pos b16] at hc
      cases hp : s.controller.pressed with
      | none =>
        rw [hp] at hc
        cases hc
        exact he
      | some key =>
        rw [hp] at hc
        simp only at hc
        by_cases e9 : i.nn = 0x9E
        · rw [if_pos e9] at hc
          cases hc
          split <;> ((try dsimp only); omega)
        rw [if_neg e9] at hc
        by_cases ea : i.nn = 0xA1
        · rw [if_pos ea] at hc
          cases hc
          split <;> ((try dsimp only); omega)
        rw [if_neg ea] at hc
        exact absurd hc (by simp)
    rw [if_neg b16] at hc
    by_cases b17 : i.first_opcode = 0xF000
    · rw [if_pos b17] at hc
      by_cases f1 : i.nn = 0x07
      · rw [if_pos f1] at hc
        cases hc
        exact he
      rw [if_neg f1] at hc
      by_cases f2 : i.nn = 0x15
      · rw [if_pos f2] at hc
        cases hc
        exact he
      rw [if_neg f2] at hc
      by_cases f3 : i.nn = 0x18
      · rw [if_pos f3] at hc
        cases hc
        exact he
      rw [if_neg f3] at hc
      by_cases f4 : i.nn = 0x1E
      · rw [if_pos f4] at hc
        cases hc
        exact he
      rw [if_neg f4] at hc
      by_cases f5 : i.nn = 0x0A
      · rw [if_pos f5] at hc
        cases hp : s.controller.pressed with
        | some key =>
          rw [hp] at hc
          cases hc
          exact he
        | none =>
          rw [hp] at hc
          cases hc
          dsimp only
          omega
      rw [if_neg f5] at hc
      by_cases f6 : i.nn = 0x29
      · rw [if_pos f6] at hc
        cases hc
        exact he
      rw [if_neg f6] at hc
      by_cases f7 : i.nn = 0x33
      · rw [if_pos f7] at hc
        cases hl : bcdLoop s.index_register [2, 1, 0] (s.registers i.x) s.memory with
        | error e =>
          rw [hl] at hc
          exact absurd hc (by simp)
        | ok mem' =>
          rw [hl] at hc
          cases hc
          exact he
      rw [if_neg f7] at hc
      by_cases f8 : i.nn = 0x55
      · rw [if_pos f8] at hc
        cases hl : storeLoop s.registers s.index_register (List.range (i.x + 1)) s.memory with
        | error e =>
          rw [hl] at hc
          exact absurd hc (by simp)
        | ok mem' =>
          rw [hl] at hc
          cases hc
          exact he
      rw [if_neg f8] at hc
      by_cases f9 : i.nn = 0x65
      · rw [if_pos f9] at hc
        cases hl : loadLoop s.memory s.index_register (List.range (i.x + 1)) s.registers with
        | error e =>
          rw [hl] at hc
          exact absurd hc (by simp)
        | ok regs' =>
          rw [hl] at hc
          cases hc
          exact he
      rw [if_neg f9] at hc
      exact absurd hc (by simp)
    rw [if_neg b17] at hc
    exact absurd hc (by simp)

end Chip8

namespace Chip8

/-- The even-control-flow-target condition at a state: the instruction word
about to be fetched only writes even values to the program counter, should it
be a return, a jump, a call or an offset jump. -/
def evenTargets (s : Emulator) : Prop :=
  let w := s.memory s.program_counter % 256 * 256 + s.memory (s.program_counter + 1) % 256
  (w = 0x00EE → s.stack.headD 0 % 2 = 0) ∧
  (w / 4096 % 16 = 1 → w % 4096 % 2 = 0) ∧
  (w / 4096 % 16 = 2 → w % 4096 % 2 = 0) ∧
  (w / 4096 % 16 = 11 → (w % 4096 + s.registers 0) % 2 = 0)

/-- Auxiliary: one fetch-decode-execute cycle preserves evenness of the
program counter under the even-control-flow-target condition. -/
theorem fde_pc_parity (rnd : Nat) (s s' : Emulator) (h : perform_fde_cycle rnd s = .ok s')
    (ht : evenTargets s) (he : s.program_counter % 2 = 0) :
    s'.program_counter % 2 = 0 := by
  simp only [perform_fde_cycle] at h
  by_cases hpc : s.program_counter + 1 < 4096
  · rw [if_pos hpc] at h
    simp only [evenTargets] at ht
    obtain ⟨t1, t2, t3, t4⟩ := ht
    have hwlt : s.memory s.program_counter % 256 * 256 +
        s.memory (s.program_counter + 1) % 256 < 65536 := by omega
    apply exec_pc_parity rnd _ _ _ h
    · intro hraw
      simp only [Instruction.new] at hraw
      exact t1 hraw
    · intro hfo
      simp only [Instruction.new] at hfo
      exact t2 (by omega)
    · intro hfo
      simp only [Instruction.new] at hfo
      exact t3 (by omega)
    · intro hfo
      simp only [Instruction.new] at hfo
      have hq := t4 (by omega)
      simpa using hq
    · dsimp only
      omega
  · rw [if_neg hpc] at h
    exact absurd h (by simp)

/-- C6 counterexample: the program consisting of the jump instruction 0x1201
makes the program counter odd (0x201 = 513) after a single fetch-decode-execute
cycle from the initial state, so the claimed evenness invariant fails. -/
theorem C6_odd_pc_reachable :
    (perform_fde_cycle 0 (initState (List.replicate 80 0) [0x12, 0x01])).toOption.map
      (fun t => t.program_counter % 2) = some 1 := by
  rfl

/-- C6 amended: the program counter is even in every state reachable from the
initial state by fetch-decode-execute cycles, provided every cycle along the
way satisfies the even-control-flow-target condition (the fetched word only
ever writes even values to the program counter when it is a return, jump,
call, or offset jump); the plain +2 advance, skips and the wait-for-key -2
rewind preserve evenness unconditionally. -/
theorem C6_pc_even_invariant (font program : List Nat) (s' : Emulator)
    (h : Relation.ReflTransGen
      (fun a b => (∃ rnd, perform_fde_cycle rnd a = .ok b) ∧ evenTargets a)
      (initState font program) s') :
    s'.program_counter % 2 = 0 := by
  induction h with
  | refl => simp [initState]
  | tail hchain hstep ih =>
    obtain ⟨⟨rnd, hfde⟩, htgt⟩ := hstep
    exact fde_pc_parity rnd _ _ hfde htgt ih

/-- C6 witness: the invariant applied to the empty chain at the initial state
of the empty program: the initial program counter 512 is even. -/
theorem C6_pc_even_invariant_witness :
    (initState (List.replicate 80 0) []).program_counter % 2 = 0 :=
  C6_pc_even_invariant (List.replicate 80 0) [] _ Relation.ReflTransGen.refl

end Chip8
